import Mathlib

/-!
Verification development for a streaming SQL execution engine: a row/value
data model, a three-valued-logic expression evaluator, streaming operators
(scan, filter, project) and the join algorithms (lookup/hash, sort-merge,
memory-mapped), together with the canonical fixtures and the planner's
predicate-pushdown transformation.  The library's core is modelled from its
specification; the test harness's helpers are translated from the test code.
-/

namespace StreamingSQL

/-- Modelled from the spec: scalar values are integer, string, boolean, null
(§3 "Scalar values").  The floating-point kind is not needed by any property
formalized here and is omitted from the integer fragment. -/
inductive Value where
  | null : Value
  | bool (b : Bool) : Value
  | int (i : Int) : Value
  | str (s : String) : Value
deriving DecidableEq, Repr

/-- Modelled from the spec: a row is a mapping from (qualified) column name to
scalar value (§3 "Row"), represented as an association list in column order. -/
abbrev Row := List (String × Value)

/-- Modelled from the spec: row lookup; "Missing columns evaluate to null"
(§3 "Row"). -/
def rowGet (r : Row) (c : String) : Value :=
  match r.find? (fun p => p.1 == c) with
  | some p => p.2
  | none => .null

/-- Modelled from the spec: three-valued SQL equality — "Equality of a null
with anything is null" (§3); "mixed-type comparisons (string vs number) yield
null" (§7). -/
def sqlEq : Value → Value → Value
  | .null, _ => .null
  | _, .null => .null
  | .bool a, .bool b => .bool (a == b)
  | .int a, .int b => .bool (a == b)
  | .str a, .str b => .bool (a == b)
  | _, _ => .null

/-- Modelled from the spec: a join key matches iff the equality comparison
yields true; "type mismatch on the join key is not fatal — unequal values
simply do not match" (§4.5). -/
def matchKey (a b : Value) : Bool :=
  match sqlEq a b with
  | .bool b => b
  | _ => false

/-- Modelled from the spec: the engine's total comparator used for ordering
values; a row missing a declared ordering column is "treated as if null for
ordering, i.e., sorts first" (§7 DataError), so null sorts before every other
kind. -/
def valueCmp : Value → Value → Ordering
  | .null, .null => .eq
  | .null, _ => .lt
  | _, .null => .gt
  | .bool a, .bool b => if a = b then .eq else if b then .lt else .gt
  | .bool _, _ => .lt
  | _, .bool _ => .gt
  | .int a, .int b => if a < b then .lt else if a = b then .eq else .gt
  | .int _, _ => .lt
  | _, .int _ => .gt
  | .str a, .str b => if a < b then .lt else if a = b then .eq else .gt

/-- Binary operators of the expression tree (§3 "Expression tree"). -/
inductive BinOp where
  | add | sub | mul | div
  | eq | ne | lt | le | gt | ge
deriving DecidableEq, Repr

/-- Modelled from the spec: the tagged expression tree — column ref, literal,
arithmetic/comparison binary op, AND/OR/NOT, IN over literals, IS [NOT] NULL
(§3 "Expression tree"). -/
inductive Expr where
  | col (table : Option String) (column : String)
  | lit (v : Value)
  | bin (op : BinOp) (l r : Expr)
  | and (l r : Expr)
  | or (l r : Expr)
  | not (e : Expr)
  | inList (e : Expr) (lits : List Value)
  | isNull (e : Expr) (negated : Bool)
deriving DecidableEq, Repr

/-- The qualified name a column reference resolves to (`table.column`, or the
bare column when unqualified). -/
def qualName (t : Option String) (c : String) : String :=
  match t with
  | some t => t ++ "." ++ c
  | none => c

/-- A value read as a three-valued truth value: booleans are definite, null
and non-boolean scalars are unknown. -/
def toTV : Value → Option Bool
  | .bool b => some b
  | _ => none

/-- Modelled from the spec: Kleene conjunction — "AND: if any operand is
false → false; else if any null → null; else true" (§4.2). -/
def kAnd (a b : Value) : Value :=
  match toTV a, toTV b with
  | some false, _ => .bool false
  | _, some false => .bool false
  | some true, some true => .bool true
  | _, _ => .null

/-- Modelled from the spec: Kleene disjunction, symmetric to `kAnd` (§4.2). -/
def kOr (a b : Value) : Value :=
  match toTV a, toTV b with
  | some true, _ => .bool true
  | _, some true => .bool true
  | some false, some false => .bool false
  | _, _ => .null

/-- Modelled from the spec: "NOT null → null" (§4.2). -/
def kNot (a : Value) : Value :=
  match toTV a with
  | some b => .bool (!b)
  | none => .null

/-- Modelled from the spec: arithmetic on the integer fragment — "Arithmetic
on nulls → null; division by zero → null" (§4.2); mixed-type arithmetic yields
null (§9 conservative interpretation). -/
def evalArith (op : BinOp) (a b : Value) : Value :=
  match a, b with
  | .int x, .int y =>
    match op with
    | .add => .int (x + y)
    | .sub => .int (x - y)
    | .mul => .int (x * y)
    | .div => if y = 0 then .null else .int (x / y)
    | _ => .null
  | _, _ => .null

/-- Modelled from the spec: three-valued comparisons (§4.2): null operands
and mixed-type operands yield null; same-kind operands compare definitely. -/
def evalCmp (op : BinOp) (a b : Value) : Value :=
  match op with
  | .eq => sqlEq a b
  | .ne => kNot (sqlEq a b)
  | _ =>
    match a, b with
    | .int x, .int y =>
      match op with
      | .lt => .bool (x < y)
      | .le => .bool (x ≤ y)
      | .gt => .bool (y < x)
      | .ge => .bool (y ≤ x)
      | _ => .null
    | .str x, .str y =>
      match op with
      | .lt => .bool (x < y)
      | .le => .bool (x < y || x == y)
      | .gt => .bool (y < x)
      | .ge => .bool (y < x || x == y)
      | _ => .null
    | _, _ => .null

/-- Dispatch of a binary operator to arithmetic or comparison semantics. -/
def evalBin (op : BinOp) (a b : Value) : Value :=
  match op with
  | .add | .sub | .mul | .div => evalArith op a b
  | _ => evalCmp op a b

/-- Modelled from the spec: `IN` — "true if any literal compares equal; null
if no match but any comparison yielded null; else false" (§4.2). -/
def evalIn (v : Value) (lits : List Value) : Value :=
  if lits.any (fun w => matchKey v w) then .bool true
  else if lits.any (fun w => decide (sqlEq v w = Value.null)) then .null
  else .bool false

/-- Modelled from the spec: the pure expression evaluator over a row (§4.2
"Pure function eval(expr, row) → scalar"). -/
def evalExpr (row : Row) : Expr → Value
  | .col t c => rowGet row (qualName t c)
  | .lit v => v
  | .bin op l r => evalBin op (evalExpr row l) (evalExpr row r)
  | .and l r => kAnd (evalExpr row l) (evalExpr row r)
  | .or l r => kOr (evalExpr row l) (evalExpr row r)
  | .not e => kNot (evalExpr row e)
  | .inList e lits => evalIn (evalExpr row e) lits
  | .isNull e negated =>
    .bool (if negated then decide (evalExpr row e ≠ .null)
           else decide (evalExpr row e = .null))

/-- A value counts as passing a filter exactly when it is the boolean true. -/
def isTrueV : Value → Bool
  | .bool b => b
  | _ => false

/-- Modelled from the spec: the Filter operator — "a row is kept iff the
predicate evaluates to true (null and false both drop the row)" (§4.2). -/
def filterOp (p : Expr) (rows : List Row) : List Row :=
  rows.filter (fun r => isTrueV (evalExpr r p))

/-- Modelled from the spec: the Project operator — "Evaluates each select-list
expression against the input row, and emits an output row keyed by the select
alias.  Preserves row order" (§4.6). -/
def projectOp (sel : List (String × Expr)) (rows : List Row) : List Row :=
  rows.map (fun r => sel.map (fun se => (se.1, evalExpr r se.2)))

/-- Modelled from the spec: Scan qualification — each producer column `col`
becomes `table.col` (§4.4). -/
def qualifyRow (t : String) (r : Row) : Row :=
  r.map (fun p => (t ++ "." ++ p.1, p.2))

/-- Modelled from the spec: the Scan operator — pulls producer rows, qualifies
each column, and evaluates the pushed predicate if any, dropping rows that do
not pass (§4.4).  Column projection is identity here (pruning soundness is not
among the verified properties). -/
def scanOp (t : String) (pushed : Option Expr) (rows : List Row) : List Row :=
  (rows.map (qualifyRow t)).filter
    (fun r =>
      match pushed with
      | some p => isTrueV (evalExpr r p)
      | none => true)

/-- Join kinds supported by the engine (§3 "Logical plan node"). -/
inductive JoinKind where
  | inner
  | left
deriving DecidableEq, Repr

/-- Modelled from the spec: the all-null right-hand row used for unmatched
left rows of a LEFT join — "all right-side columns set to null" (§4.5). -/
def nullRow (cols : List String) : Row :=
  cols.map (fun c => (c, Value.null))

/-- Modelled from the spec: the right-side rows whose join key matches a given
left key value (§4.5.1: the bucket of the lookup mapping consulted for one
left row, in right-input order). -/
def matchRows (kr : String) (k : Value) (rights : List Row) : List Row :=
  rights.filter (fun r => matchKey k (rowGet r kr))

/-- Modelled from the spec: the lookup (hash) join — drains the right input,
then streams the left input; "for each surviving left row and matched right
row, a merged qualified row.  For LEFT join, unmatched left rows are emitted
once with all right-side columns set to null"; N right matches produce N
output rows; left-input order is preserved (§4.5, §4.5.1). -/
def lookupJoin (kind : JoinKind) (kl kr : String) (rcols : List String) :
    List Row → List Row → List Row
  | [], _ => []
  | l :: ls, rights =>
    (let ms := matchRows kr (rowGet l kl) rights
     if ms.isEmpty then
       match kind with
       | .left => [l ++ nullRow rcols]
       | .inner => []
     else ms.map (fun r => l ++ r)) ++ lookupJoin kind kl kr rcols ls rights

/-! ### Canonical fixtures

Modelled from the spec: the system's canonical fixtures `users`, `orders`,
`products`, `reviews` (§8 "Concrete scenarios").  The spec pins down: six
orders, each with a matching user; six products with all stocks present, of
which exactly Mouse (200), Keyboard (150) and USB Cable (500) have stock
above 100, only Mouse of those has checked = 1, four are Electronics and one
is Audio; and reviews matching the Laptop product twice, leaving the other
products unreviewed. -/

/-- Modelled from the spec: the `users` fixture (three users, ids ascending
so the sort-merge scenario's ordered-by declaration holds). -/
def usersRows : List Row :=
  [[("id", .int 1), ("name", .str "Alice"), ("city", .str "NYC"), ("age", .int 30)],
   [("id", .int 2), ("name", .str "Bob"), ("city", .str "LA"), ("age", .int 25)],
   [("id", .int 3), ("name", .str "Carol"), ("city", .str "SF"), ("age", .int 35)]]

/-- Modelled from the spec: the `orders` fixture — six orders, every one with
a matching user, non-descending on `user_id`. -/
def ordersRows : List Row :=
  [[("user_id", .int 1), ("product", .str "Laptop"), ("price", .int 1200), ("quantity", .int 1)],
   [("user_id", .int 1), ("product", .str "Mouse"), ("price", .int 25), ("quantity", .int 2)],
   [("user_id", .int 2), ("product", .str "Keyboard"), ("price", .int 75), ("quantity", .int 1)],
   [("user_id", .int 2), ("product", .str "Monitor"), ("price", .int 300), ("quantity", .int 1)],
   [("user_id", .int 3), ("product", .str "USB Cable"), ("price", .int 10), ("quantity", .int 3)],
   [("user_id", .int 3), ("product", .str "Headphones"), ("price", .int 150), ("quantity", .int 1)]]

/-- Modelled from the spec: the `products` fixture — six products with the
stock, checked and category facts the scenarios rely on. -/
def productsRows : List Row :=
  [[("product_id", .int 1), ("name", .str "Laptop"), ("category", .str "Electronics"),
    ("stock", .int 5), ("checked", .int 0)],
   [("product_id", .int 2), ("name", .str "Mouse"), ("category", .str "Electronics"),
    ("stock", .int 200), ("checked", .int 1)],
   [("product_id", .int 3), ("name", .str "Keyboard"), ("category", .str "Electronics"),
    ("stock", .int 150), ("checked", .int 0)],
   [("product_id", .int 4), ("name", .str "Monitor"), ("category", .str "Electronics"),
    ("stock", .int 30), ("checked", .int 1)],
   [("product_id", .int 5), ("name", .str "USB Cable"), ("category", .str "Accessories"),
    ("stock", .int 500), ("checked", .int 0)],
   [("product_id", .int 6), ("name", .str "Headphones"), ("category", .str "Audio"),
    ("stock", .int 80), ("checked", .int 1)]]

/-- Modelled from the spec: the `reviews` fixture — two reviews, both for the
Laptop product, so the LEFT-join scenario yields seven rows. -/
def reviewsRows : List Row :=
  [[("product_id", .int 1), ("user_id", .int 2), ("rating", .int 5), ("comment", .str "Great")],
   [("product_id", .int 1), ("user_id", .int 3), ("rating", .int 4), ("comment", .str "Good")]]

/-- The qualified right-side columns of the `orders` scan (null-pad set for
LEFT joins against orders). -/
def ordersCols : List String :=
  ["orders.user_id", "orders.product", "orders.price", "orders.quantity"]

/-- The qualified right-side columns of the `reviews` scan. -/
def reviewsCols : List String :=
  ["reviews.product_id", "reviews.user_id", "reviews.rating", "reviews.comment"]

/-- Modelled from the spec: one step of the sort-merge join's state machine
(§4.5.2, §4.8), written with an explicit step budget so the definition is
structurally recursive; `mergeJoin` supplies a budget large enough that it is
never exhausted.  When the left key is smaller, the left row is emitted
unmatched (LEFT join) or dropped and the left cursor advances; when larger,
the right cursor advances; when equal, the right-side run of equal keys is
buffered and the cross product with the current left row is emitted. -/
def mergeJoinAux (kind : JoinKind) (kl kr : String) (rcols : List String) :
    Nat → List Row → List Row → List Row
  | 0, _, _ => []
  | _ + 1, [], _ => []
  | _ + 1, l :: ls, [] =>
    match kind with
    | .left => (l :: ls).map (fun x => x ++ nullRow rcols)
    | .inner => []
  | fuel + 1, l :: ls, r :: rs =>
    if valueCmp (rowGet l kl) (rowGet r kr) = .lt then
      (match kind with
       | .left => [l ++ nullRow rcols]
       | .inner => []) ++ mergeJoinAux kind kl kr rcols fuel ls (r :: rs)
    else if valueCmp (rowGet l kl) (rowGet r kr) = .gt then
      mergeJoinAux kind kl kr rcols fuel (l :: ls) rs
    else
      let run := (r :: rs).takeWhile
        (fun x => valueCmp (rowGet x kr) (rowGet r kr) == .eq)
      run.map (fun x => l ++ x) ++ mergeJoinAux kind kl kr rcols fuel ls (r :: rs)

/-- Modelled from the spec: the sort-merge join (§4.5.2) — requires both
inputs pre-sorted non-descending on the join key; advances two cursors in
lockstep with a LEFT-join tail flush when the right side is exhausted. -/
def mergeJoin (kind : JoinKind) (kl kr : String) (rcols : List String)
    (lefts rights : List Row) : List Row :=
  mergeJoinAux kind kl kr rcols (lefts.length + rights.length + 1) lefts rights

/-- Modelled from the spec: the memory-mapped join's offset index — "an index
of right-key → file offsets without loading row contents into memory"
(§4.5.4); offsets are positions in the row file, built here from a given
starting offset. -/
def offsetIndex (kr : String) : Nat → List Row → List (Value × Nat)
  | _, [] => []
  | i, r :: rs => (rowGet r kr, i) :: offsetIndex kr (i + 1) rs

/-- Fetching one row of the mapped file by offset. -/
def fetchRow (file : List Row) (i : Nat) : Row :=
  file.getD i []

/-- Modelled from the spec: the memory-mapped join core — builds the offset
index over the (already qualified) file rows, then streams the left side,
fetching matching right rows by offset (§4.5.4); LEFT-join padding as in the
common contract. -/
def mmapJoinCore (kind : JoinKind) (kl kr : String) (rcols : List String)
    (lefts file : List Row) : List Row :=
  let idx := offsetIndex kr 0 file
  lefts.flatMap (fun l =>
    let offs := (idx.filter (fun e => matchKey (rowGet l kl) e.1)).map (fun e => e.2)
    let ms := offs.map (fetchRow file)
    if ms.isEmpty then
      match kind with
      | .left => [l ++ nullRow rcols]
      | .inner => []
    else ms.map (fun r => l ++ r))

/-- Modelled from the spec: the MMAP strategy with its fallback — "Falls back
to lookup join if a filename is absent or the file is not in a mappable row
format" (§4.5.4).  The optional file carries its qualified rows and a flag
saying whether the row format is mappable. -/
def mmapStrategy (kind : JoinKind) (kl kr : String) (rcols : List String)
    (lefts rights : List Row) : Option (List Row × Bool) → List Row
  | some (file, true) => mmapJoinCore kind kl kr rcols lefts file
  | some (_, false) => lookupJoin kind kl kr rcols lefts rights
  | none => lookupJoin kind kl kr rcols lefts rights

/-! ### Planner model: single-join queries and predicate pushdown -/

/-- Modelled from the spec: the resolved shape of a one-join SELECT — select
list with aliases, the two FROM tables, join kind, the equi-join key pair
from the `ON` clause, the qualified right-side columns, and the WHERE clause
split into its top-level AND conjuncts (§4.3). -/
structure SJQuery where
  sel : List (String × Expr)
  ltab : String
  rtab : String
  kind : JoinKind
  lkey : String
  rkey : String
  rcols : List String
  wconjs : List Expr
deriving DecidableEq, Repr

/-- The table qualifiers of every column reference in an expression. -/
def exprTables : Expr → List String
  | .col (some t) _ => [t]
  | .col none _ => []
  | .lit _ => []
  | .bin _ l r => exprTables l ++ exprTables r
  | .and l r => exprTables l ++ exprTables r
  | .or l r => exprTables l ++ exprTables r
  | .not e => exprTables e
  | .inList e _ => exprTables e
  | .isNull e _ => exprTables e

/-- The qualified column names an expression reads from its row. -/
def exprCols : Expr → List String
  | .col t c => [qualName t c]
  | .lit _ => []
  | .bin _ l r => exprCols l ++ exprCols r
  | .and l r => exprCols l ++ exprCols r
  | .or l r => exprCols l ++ exprCols r
  | .not e => exprCols e
  | .inList e _ => exprCols e
  | .isNull e _ => exprCols e

/-- Where the planner places one WHERE conjunct. -/
inductive PushTarget where
  | toLeft
  | toRight
  | above
deriving DecidableEq, Repr

/-- Modelled from the spec: conjunct placement (§4.3 step 3) — a conjunct
referencing a single base table becomes that Scan's pushed predicate; for a
LEFT join, a conjunct referencing only the preserved (left) side pushes
through, while one referencing the nullable (right) side stays above the
join. -/
def classify (q : SJQuery) (e : Expr) : PushTarget :=
  if (exprTables e).all (fun t => t == q.ltab) then .toLeft
  else if (exprTables e).all (fun t => t == q.rtab) && q.kind == .inner then .toRight
  else .above

/-- The WHERE predicate reassembled as the conjunction of its conjuncts. -/
def foldAnd (cs : List Expr) : Expr :=
  cs.foldr Expr.and (.lit (.bool true))

/-- Modelled from the spec: the naive plan that evaluates the whole WHERE
predicate above the joins (§8 "Predicate pushdown soundness"). -/
def runNaive (q : SJQuery) (lrows rrows : List Row) : List Row :=
  projectOp q.sel
    (filterOp (foldAnd q.wconjs)
      (lookupJoin q.kind q.lkey q.rkey q.rcols
        (scanOp q.ltab none lrows)
        (scanOp q.rtab none rrows)))

/-- Modelled from the spec: the plan with predicate pushdown applied —
single-table conjuncts become the scans' pushed predicates, the rest stays
in a Filter above the join (§4.3 step 3). -/
def runPushed (q : SJQuery) (lrows rrows : List Row) : List Row :=
  let lcs := q.wconjs.filter (fun c => classify q c == .toLeft)
  let rcs := q.wconjs.filter (fun c => classify q c == .toRight)
  let acs := q.wconjs.filter (fun c => classify q c == .above)
  projectOp q.sel
    (filterOp (foldAnd acs)
      (lookupJoin q.kind q.lkey q.rkey q.rcols
        (scanOp q.ltab (some (foldAnd lcs)) lrows)
        (scanOp q.rtab (some (foldAnd rcs)) rrows)))

/-! ### Strategy selection, restartability, and failure semantics -/

/-- The four join strategies (§4.5). -/
inductive Strategy where
  | columnar
  | sortMerge
  | mmap
  | lookup
deriving DecidableEq, Repr

/-- Registration metadata of a table (§3 "Registered table"). -/
structure TableMeta where
  ordered_by : Option String
  filename : Option String
deriving DecidableEq, Repr

/-- Modelled from the spec: per-join strategy selection (§4.3 step 5) —
columnar when the engine-wide polars flag is set; sort-merge when both
children are scans of tables with matching ordered-by declarations; MMAP
when both carry filenames and the engine permits; else lookup. -/
def chooseStrategy (usePolars : Bool) (lMeta rMeta : TableMeta)
    (lkeyCol rkeyCol : String) (mmapAllowed : Bool) : Strategy :=
  if usePolars then .columnar
  else if lMeta.ordered_by == some lkeyCol && rMeta.ordered_by == some rkeyCol then
    .sortMerge
  else if mmapAllowed && lMeta.filename.isSome && rMeta.filename.isSome then
    .mmap
  else .lookup

/-- Modelled from the spec: a producer is restartable when every invocation
yields the same sequence from the beginning (Glossary "Restartable"). -/
def Restartable (p : Nat → List Row) : Prop :=
  ∀ i j, p i = p j

/-- Invoking a registered producer: the invocation consumes that producer's
next invocation index. -/
def invokeProducer (producers : String → Nat → List Row)
    (counts : String → Nat) (t : String) : List Row × (String → Nat) :=
  (producers t (counts t), fun s => if s = t then counts t + 1 else counts s)

/-- Modelled from the spec: one `query` call over a one-join plan, tracking
how often each producer has been invoked so that a second run on the same
engine uses the later invocations (§4.7, §8 "Restartability"). -/
def runQueryCounted (q : SJQuery) (producers : String → Nat → List Row)
    (counts : String → Nat) : List Row × (String → Nat) :=
  let li := invokeProducer producers counts q.ltab
  let ri := invokeProducer producers li.2 q.rtab
  (runNaive q li.1 ri.1, ri.2)

/-- Planning failures (§4.9, §7). -/
inductive PlanErr where
  | unknownTable (t : String)
  | unresolvedColumn (c : String)
  | unsupported (construct : String)
deriving DecidableEq, Repr

/-- The qualified column references whose table qualifier is neither FROM
table of the query — these fail resolution (§4.3 step 1). -/
def unresolvedRefs (q : SJQuery) : List String :=
  (((q.sel.map (fun se => se.2)) ++ q.wconjs).flatMap exprTables).filter
    (fun t => !(t == q.ltab || t == q.rtab))

/-- Modelled from the spec: synchronous plan validation — unknown tables and
unresolved columns are planning errors raised before any iteration (§4.9). -/
def planCheck (q : SJQuery) (registered : List String) : Except PlanErr Unit :=
  if q.ltab ∈ registered then
    if q.rtab ∈ registered then
      match unresolvedRefs q with
      | [] => .ok ()
      | t :: _ => .error (.unresolvedColumn t)
    else .error (.unknownTable q.rtab)
  else .error (.unknownTable q.ltab)

/-- A producer run that may end in an error: the rows yielded before the
error, and the error if one was raised. -/
abbrev EProducer := List Row × Option String

/-- Modelled from the spec: evaluation with producer errors — the lookup join
drains the right producer first, so a right-side error surfaces at the first
pull, before any row is yielded; a left-side error surfaces after the rows
built from the left rows already produced, which remain valid (§4.9,
§4.5.1). -/
def runWithErrors (q : SJQuery) (lp rp : EProducer) : List Row × Option String :=
  match rp.2 with
  | some e => ([], some e)
  | none => (runNaive q lp.1 rp.1, lp.2)

/-- Modelled from the spec: the `query` entry point — plan validation happens
synchronously; only a validated plan starts iterating (§4.7, §4.9). -/
def queryE (q : SJQuery) (registered : List String) (lp rp : EProducer) :
    Except PlanErr (List Row × Option String) :=
  match planCheck q registered with
  | .error e => .error e
  | .ok _ => .ok (runWithErrors q lp rp)

/-- The `str.strip()` operation used by the test harness: drop whitespace
characters from both ends of the string. -/
def pyStrip (s : String) : String :=
  ⟨((s.data.dropWhile Char.isWhitespace).reverse.dropWhile Char.isWhitespace).reverse⟩

/-- Translated from the test harness (`load_jsonl` in
src/test/test_readme_examples.py): for each line of the file, strip it, and
yield the parsed value exactly when the stripped line is non-empty.  File
access and `json.loads` are external; the line list and the parser are
parameters. -/
def load_jsonl {V : Type} (parseLine : String → V) : List String → List V
  | [] => []
  | l :: ls =>
    let s := pyStrip l
    if s ≠ "" then parseLine s :: load_jsonl parseLine ls
    else load_jsonl parseLine ls

/-! ### Concrete scenario plans

Each scenario is the operator tree the planner produces for the spec's
concrete queries (§8), modelled from the spec's plan shape
producer → Scan → Join → Project (§2). -/

/-- Modelled from the spec: the plan of scenario 1,
`SELECT users.name, orders.product FROM users JOIN orders ON
users.id = orders.user_id` — an INNER lookup join of the two scans under the
projection. -/
def scenario1Result : List Row :=
  projectOp
    [("users.name", .col (some "users") "name"),
     ("orders.product", .col (some "orders") "product")]
    (lookupJoin .inner "users.id" "orders.user_id" ordersCols
      (scanOp "users" none usersRows)
      (scanOp "orders" none ordersRows))

/-- Modelled from the spec: the plan of scenario 2,
`SELECT products.name FROM products WHERE products.stock > 100` — the WHERE
conjunct references the single base table, so it is the scan's pushed
predicate (§4.3 step 3). -/
def scenario2Result : List Row :=
  projectOp [("products.name", .col (some "products") "name")]
    (scanOp "products"
      (some (.bin .gt (.col (some "products") "stock") (.lit (.int 100))))
      productsRows)

/-- Modelled from the spec: the plan of scenario 5,
`SELECT products.name, reviews.rating FROM products LEFT JOIN reviews ON
products.product_id = reviews.product_id` — a LEFT lookup join under the
projection. -/
def scenario5Result : List Row :=
  projectOp
    [("products.name", .col (some "products") "name"),
     ("reviews.rating", .col (some "reviews") "rating")]
    (lookupJoin .left "products.product_id" "reviews.product_id" reviewsCols
      (scanOp "products" none productsRows)
      (scanOp "reviews" none reviewsRows))

/-! ### Helper lemmas -/

/-- A value passes a filter exactly when it is the boolean true. -/
theorem isTrueV_eq_true_iff (v : Value) : isTrueV v = true ↔ v = .bool true := by
  cases v <;> simp [isTrueV]

/-- The length of a LEFT lookup join: each left row contributes one output
row when unmatched and one per match otherwise. -/
theorem lookupJoin_left_length (kl kr : String) (rcols : List String)
    (lefts rights : List Row) :
    (lookupJoin .left kl kr rcols lefts rights).length =
      (lefts.map (fun l => max 1 (matchRows kr (rowGet l kl) rights).length)).sum := by
  induction lefts with
  | nil => rfl
  | cons l ls ih =>
    simp only [lookupJoin, List.length_append, List.map_cons, List.sum_cons, ih]
    cases hms : matchRows kr (rowGet l kl) rights with
    | nil => simp
    | cons r rs => simp [Nat.max_eq_right, Nat.succ_le_succ]

/-- Every left row of a LEFT lookup join appears in the output, extended by
some right-side part. -/
theorem lookupJoin_left_mem (kl kr : String) (rcols : List String)
    (lefts rights : List Row) (l : Row) (hl : l ∈ lefts) :
    ∃ t, (l ++ t) ∈ lookupJoin .left kl kr rcols lefts rights := by
  induction lefts with
  | nil => cases hl
  | cons x xs ih =>
    rcases List.mem_cons.mp hl with h | h
    · subst h
      cases hms : matchRows kr (rowGet l kl) rights with
      | nil =>
        exact ⟨nullRow rcols, by simp [lookupJoin, hms]⟩
      | cons r rs =>
        refine ⟨r, ?_⟩
        simp [lookupJoin, hms]
    · rcases ih h with ⟨t, ht⟩
      exact ⟨t, by simp [lookupJoin]; right; exact ht⟩

/-- An unmatched left row of a LEFT lookup join appears padded with the
all-null right-side row. -/
theorem lookupJoin_left_unmatched (kl kr : String) (rcols : List String)
    (lefts rights : List Row) (l : Row) (hl : l ∈ lefts)
    (hm : matchRows kr (rowGet l kl) rights = []) :
    (l ++ nullRow rcols) ∈ lookupJoin .left kl kr rcols lefts rights := by
  induction lefts with
  | nil => cases hl
  | cons x xs ih =>
    rcases List.mem_cons.mp hl with h | h
    · subst h
      simp [lookupJoin, hm]
    · simp [lookupJoin]
      right
      exact ih h

/-- The lookup join as a per-left-row flat map. -/
theorem lookupJoin_eq_flatMap (kind : JoinKind) (kl kr : String) (rcols : List String)
    (lefts rights : List Row) :
    lookupJoin kind kl kr rcols lefts rights =
      lefts.flatMap (fun l =>
        let ms := matchRows kr (rowGet l kl) rights
        if ms.isEmpty then
          match kind with
          | .left => [l ++ nullRow rcols]
          | .inner => []
        else ms.map (fun r => l ++ r)) := by
  induction lefts with
  | nil => rfl
  | cons l ls ih => simp only [lookupJoin, List.flatMap_cons, ih]

/-- Filtering the offset index by key and fetching the rows at the surviving
offsets recovers exactly the matching rows, for an index built at the offset
of the suffix being indexed. -/
theorem offsetIndex_filter_fetch (kr : String) (k : Value) (B : List Row) :
    ∀ (rows : List Row) (i : Nat), B.drop i = rows →
      ((offsetIndex kr i rows).filter (fun e => matchKey k e.1)).map
        (fun e => fetchRow B e.2) = matchRows kr k rows := by
  intro rows
  induction rows with
  | nil => intro i _; rfl
  | cons r rs ih =>
    intro i hdrop
    have hget : B[i]? = some r := by
      have h0 := congrArg (fun l => l[0]?) hdrop
      simpa [List.getElem?_drop] using h0
    have hfetch : fetchRow B i = r := by
      simp [fetchRow, List.getD_eq_getElem?_getD, hget]
    have hdrop' : B.drop (i + 1) = rs := by
      rw [← List.tail_drop, hdrop]
      rfl
    have ihx := ih (i + 1) hdrop'
    cases hm : matchKey k (rowGet r kr) with
    | true => simp [offsetIndex, matchRows, List.filter_cons, hm, hfetch, ihx]
    | false => simp [offsetIndex, matchRows, List.filter_cons, hm, ihx]

/-- The memory-mapped join core is extensionally the lookup join when the
file rows are the right input. -/
theorem mmapJoinCore_eq_lookupJoin (kind : JoinKind) (kl kr : String)
    (rcols : List String) (lefts rights : List Row) :
    mmapJoinCore kind kl kr rcols lefts rights =
      lookupJoin kind kl kr rcols lefts rights := by
  rw [lookupJoin_eq_flatMap]
  unfold mmapJoinCore
  induction lefts with
  | nil => rfl
  | cons l ls ih =>
    simp only [List.flatMap_cons] at ih ⊢
    rw [ih]
    have hms := offsetIndex_filter_fetch kr (rowGet l kl) rights rights 0 rfl
    simp only [List.map_map, Function.comp_def, hms]

/-- None of the given column names occurs in the row. -/
def colsAbsent (cols : List String) (r : Row) : Prop :=
  ∀ c ∈ cols, r.find? (fun p => p.1 == c) = none

instance decColsAbsent (cols : List String) (r : Row) : Decidable (colsAbsent cols r) :=
  inferInstanceAs (Decidable (∀ c ∈ cols, r.find? (fun p => p.1 == c) = none))

/-- Looking up a column in a concatenation ignores a right part that lacks
the column. -/
theorem rowGet_append_right (l t : Row) (c : String)
    (h : t.find? (fun p => p.1 == c) = none) :
    rowGet (l ++ t) c = rowGet l c := by
  unfold rowGet
  rw [List.find?_append]
  cases hl : l.find? (fun p => p.1 == c) <;> simp [hl, h]

/-- Looking up a column in a concatenation ignores a left part that lacks
the column. -/
theorem rowGet_append_left (l t : Row) (c : String)
    (h : l.find? (fun p => p.1 == c) = none) :
    rowGet (l ++ t) c = rowGet t c := by
  unfold rowGet
  rw [List.find?_append]
  simp [h]

/-- Evaluation only reads the columns `exprCols` lists: appending a row that
lacks all of them does not change the value. -/
theorem evalExpr_append_right (l t : Row) (e : Expr)
    (h : colsAbsent (exprCols e) t) :
    evalExpr (l ++ t) e = evalExpr l e := by
  induction e with
  | col tb c =>
    exact rowGet_append_right l t (qualName tb c) (h (qualName tb c) (by simp [exprCols]))
  | lit v => rfl
  | bin op a b iha ihb =>
    simp only [exprCols] at h
    rw [evalExpr, evalExpr, iha (fun c hc => h c (List.mem_append_left _ hc)),
        ihb (fun c hc => h c (List.mem_append_right _ hc))]
  | and a b iha ihb =>
    simp only [exprCols] at h
    rw [evalExpr, evalExpr, iha (fun c hc => h c (List.mem_append_left _ hc)),
        ihb (fun c hc => h c (List.mem_append_right _ hc))]
  | or a b iha ihb =>
    simp only [exprCols] at h
    rw [evalExpr, evalExpr, iha (fun c hc => h c (List.mem_append_left _ hc)),
        ihb (fun c hc => h c (List.mem_append_right _ hc))]
  | not a iha =>
    simp only [exprCols] at h
    rw [evalExpr, evalExpr, iha h]
  | inList a lits iha =>
    simp only [exprCols] at h
    rw [evalExpr, evalExpr, iha h]
  | isNull a neg iha =>
    simp only [exprCols] at h
    rw [evalExpr, evalExpr, iha h]

/-- Evaluation only reads the columns `exprCols` lists: prepending a row that
lacks all of them does not change the value. -/
theorem evalExpr_append_left (l t : Row) (e : Expr)
    (h : colsAbsent (exprCols e) l) :
    evalExpr (l ++ t) e = evalExpr t e := by
  induction e with
  | col tb c =>
    exact rowGet_append_left l t (qualName tb c) (h (qualName tb c) (by simp [exprCols]))
  | lit v => rfl
  | bin op a b iha ihb =>
    simp only [exprCols] at h
    rw [evalExpr, evalExpr, iha (fun c hc => h c (List.mem_append_left _ hc)),
        ihb (fun c hc => h c (List.mem_append_right _ hc))]
  | and a b iha ihb =>
    simp only [exprCols] at h
    rw [evalExpr, evalExpr, iha (fun c hc => h c (List.mem_append_left _ hc)),
        ihb (fun c hc => h c (List.mem_append_right _ hc))]
  | or a b iha ihb =>
    simp only [exprCols] at h
    rw [evalExpr, evalExpr, iha (fun c hc => h c (List.mem_append_left _ hc)),
        ihb (fun c hc => h c (List.mem_append_right _ hc))]
  | not a iha =>
    simp only [exprCols] at h
    rw [evalExpr, evalExpr, iha h]
  | inList a lits iha =>
    simp only [exprCols] at h
    rw [evalExpr, evalExpr, iha h]
  | isNull a neg iha =>
    simp only [exprCols] at h
    rw [evalExpr, evalExpr, iha h]

/-- `List.all` only depends on the predicate's values on the list. -/
theorem allCongr {α : Type} (l : List α) (f g : α → Bool)
    (h : ∀ x ∈ l, f x = g x) : l.all f = l.all g := by
  induction l with
  | nil => rfl
  | cons x xs ih =>
    simp only [List.all_cons, h x (by simp), ih (fun y hy => h y (by simp [hy]))]

/-- Filtering the left input of a lookup join by a predicate that only looks
at left-side columns commutes with the join. -/
theorem lookupJoin_filter_left (kind : JoinKind) (kl kr : String)
    (rcols : List String) (p : Row → Bool) (lefts rights : List Row)
    (hmatch : ∀ l ∈ lefts, ∀ r ∈ rights, p (l ++ r) = p l)
    (hnull : ∀ l ∈ lefts, p (l ++ nullRow rcols) = p l) :
    lookupJoin kind kl kr rcols (lefts.filter p) rights =
      (lookupJoin kind kl kr rcols lefts rights).filter p := by
  induction lefts with
  | nil => rfl
  | cons l ls ih =>
    have hnl : p (l ++ nullRow rcols) = p l := hnull l (by simp)
    have ihx := ih (fun x hx r hr => hmatch x (by simp [hx]) r hr)
      (fun x hx => hnull x (by simp [hx]))
    have hcontrib : ∀ x ∈ (let ms := matchRows kr (rowGet l kl) rights
        if ms.isEmpty then
          match kind with
          | .left => [l ++ nullRow rcols]
          | .inner => []
        else ms.map (fun r => l ++ r)), p x = p l := by
      intro x hx
      simp only at hx
      cases hms : matchRows kr (rowGet l kl) rights with
      | nil =>
        rw [hms] at hx
        cases kind with
        | left =>
          simp only [List.isEmpty_nil, if_pos] at hx
          have hx' : x = l ++ nullRow rcols := by simpa using hx
          rw [hx']
          exact hnl
        | inner => simp at hx
      | cons r0 rs0 =>
        rw [hms] at hx
        simp only [List.isEmpty_cons, Bool.false_eq_true, if_neg] at hx
        rcases List.mem_map.mp hx with ⟨r, hr, hxr⟩
        have hrr : r ∈ rights := (List.mem_filter.mp (hms ▸ hr)).1
        rw [← hxr]
        exact hmatch l (by simp) r hrr
    rw [List.filter_cons]
    cases hp : p l with
    | true =>
      simp only [if_pos]
      simp only [lookupJoin, ihx, List.filter_append]
      have hkeep : ∀ x ∈ (let ms := matchRows kr (rowGet l kl) rights
          if ms.isEmpty then
            match kind with
            | .left => [l ++ nullRow rcols]
            | .inner => []
          else ms.map (fun r => l ++ r)), p x = true := by
        intro x hx
        rw [hcontrib x hx]
        exact hp
      rw [List.filter_eq_self.mpr hkeep]
    | false =>
      rw [if_neg Bool.false_ne_true]
      simp only [lookupJoin, List.filter_append]
      rw [ihx]
      have hdrop : ∀ x ∈ (let ms := matchRows kr (rowGet l kl) rights
          if ms.isEmpty then
            match kind with
            | .left => [l ++ nullRow rcols]
            | .inner => []
          else ms.map (fun r => l ++ r)), ¬p x = true := by
        intro x hx
        rw [hcontrib x hx, hp]
        simp
      rw [List.filter_eq_nil_iff.mpr hdrop]
      exact (List.nil_append _).symm

/-- The inner lookup join ignores the empty-match branch: it is the flat map
of per-left-row match lists. -/
theorem lookupJoin_inner_eq (kl kr : String) (rcols : List String)
    (lefts rights : List Row) :
    lookupJoin .inner kl kr rcols lefts rights =
      lefts.flatMap (fun l => (matchRows kr (rowGet l kl) rights).map
        (fun r => l ++ r)) := by
  induction lefts with
  | nil => rfl
  | cons l ls ih =>
    simp only [lookupJoin, List.flatMap_cons, ih]
    cases hms : matchRows kr (rowGet l kl) rights <;> simp [hms]

/-- Match lists commute with a filter of the right input. -/
theorem matchRows_filter (kr : String) (k : Value) (q : Row → Bool)
    (rights : List Row) :
    matchRows kr k (rights.filter q) = (matchRows kr k rights).filter q := by
  unfold matchRows
  rw [List.filter_filter, List.filter_filter]
  exact List.filter_congr (fun r _ => Bool.and_comm _ _)

/-- Filtering the right input of an inner lookup join by a predicate that
only looks at right-side columns commutes with the join. -/
theorem lookupJoin_filter_right (kl kr : String) (rcols : List String)
    (p : Row → Bool) (lefts rights : List Row)
    (hmatch : ∀ l ∈ lefts, ∀ r ∈ rights, p (l ++ r) = p r) :
    lookupJoin .inner kl kr rcols lefts (rights.filter p) =
      (lookupJoin .inner kl kr rcols lefts rights).filter p := by
  rw [lookupJoin_inner_eq, lookupJoin_inner_eq]
  induction lefts with
  | nil => rfl
  | cons l ls ih =>
    simp only [List.flatMap_cons, List.filter_append]
    rw [ih (fun x hx r hr => hmatch x (by simp [hx]) r hr)]
    rw [matchRows_filter, List.filter_map]
    have hpt : ∀ r ∈ matchRows kr (rowGet l kl) rights,
        ((p ∘ fun r => l ++ r) r) = p r := by
      intro r hr
      exact hmatch l (by simp) r (List.mem_filter.mp hr).1
    rw [List.filter_congr hpt]

/-- Kleene conjunction passes a filter exactly when both operands do. -/
theorem isTrueV_kAnd (a b : Value) :
    isTrueV (kAnd a b) = (isTrueV a && isTrueV b) := by
  cases a <;> cases b <;>
    first
    | rfl
    | (rename_i x; cases x <;> rfl)
    | (rename_i x y; cases x <;> cases y <;> rfl)

/-- The conjunction of a list of conjuncts passes a filter exactly when every
conjunct does. -/
theorem isTrueV_foldAnd (cs : List Expr) (r : Row) :
    isTrueV (evalExpr r (foldAnd cs)) = cs.all (fun c => isTrueV (evalExpr r c)) := by
  induction cs with
  | nil => rfl
  | cons c cs ih =>
    simp only [foldAnd, List.foldr_cons, List.all_cons] at ih ⊢
    rw [evalExpr, isTrueV_kAnd, ih]

/-- Filtering by a conjunction is filtering by the pointwise Boolean `all` of
the conjuncts. -/
theorem filterOp_foldAnd (cs : List Expr) (rows : List Row) :
    filterOp (foldAnd cs) rows =
      rows.filter (fun r => cs.all (fun c => isTrueV (evalExpr r c))) := by
  unfold filterOp
  exact List.filter_congr (fun r _ => isTrueV_foldAnd cs r)

/-- A scan with a pushed predicate is the plain scan followed by the filter. -/
theorem scanOp_pushed (t : String) (p : Expr) (rows : List Row) :
    scanOp t (some p) rows = filterOp p (scanOp t none rows) := by
  unfold scanOp filterOp
  rw [List.filter_true]

/-- `classify` sends each conjunct to exactly one of the three targets, so
the Boolean `all` over a conjunct list splits along the classification. -/
theorem all_classify_split (q : SJQuery) (f : Expr → Bool) (cs : List Expr) :
    cs.all f =
      ((cs.filter (fun c => classify q c == .toLeft)).all f &&
       ((cs.filter (fun c => classify q c == .toRight)).all f &&
        (cs.filter (fun c => classify q c == .above)).all f)) := by
  induction cs with
  | nil => rfl
  | cons c cs ih =>
    cases hc : classify q c with
    | toLeft =>
      simp only [List.all_cons, List.filter_cons, hc, ih]
      simp [Bool.and_assoc, Bool.and_comm, Bool.and_left_comm]
    | toRight =>
      simp only [List.all_cons, List.filter_cons, hc, ih]
      simp [Bool.and_assoc, Bool.and_comm, Bool.and_left_comm]
    | above =>
      simp only [List.all_cons, List.filter_cons, hc, ih]
      simp [Bool.and_assoc, Bool.and_comm, Bool.and_left_comm]

/-- A conjunct is classified to the right side only under an INNER join. -/
theorem classify_toRight_inner (q : SJQuery) (c : Expr)
    (h : classify q c = .toRight) : q.kind = .inner := by
  unfold classify at h
  by_cases h1 : (exprTables c).all (fun t => t == q.ltab)
  · rw [if_pos h1] at h
    cases h
  · rw [if_neg h1] at h
    by_cases h2 : ((exprTables c).all (fun t => t == q.rtab) && q.kind == .inner) = true
    · rcases Bool.and_eq_true_iff.mp h2 with ⟨_, hk⟩
      exact of_decide_eq_true hk
    · rw [if_neg h2] at h
      cases h

/-- Predicate pushdown produces the same rows as filtering above the join:
the heart of C4, stated over the two plan shapes. -/
theorem runPushed_eq_runNaive (q : SJQuery) (lrows rrows : List Row)
    (hL : ∀ c ∈ q.wconjs, classify q c = .toLeft →
      (∀ r ∈ scanOp q.rtab none rrows, colsAbsent (exprCols c) r) ∧
      colsAbsent (exprCols c) (nullRow q.rcols))
    (hR : ∀ c ∈ q.wconjs, classify q c = .toRight →
      ∀ l ∈ scanOp q.ltab none lrows, colsAbsent (exprCols c) l) :
    runPushed q lrows rrows = runNaive q lrows rrows := by
  unfold runPushed runNaive
  simp only
  rw [scanOp_pushed, scanOp_pushed, filterOp_foldAnd, filterOp_foldAnd,
      filterOp_foldAnd, filterOp_foldAnd]
  apply congrArg (projectOp q.sel)
  have hstepA :
      lookupJoin q.kind q.lkey q.rkey q.rcols
        ((scanOp q.ltab none lrows).filter
          (fun r => (q.wconjs.filter (fun c => classify q c == .toLeft)).all
            (fun c => isTrueV (evalExpr r c))))
        ((scanOp q.rtab none rrows).filter
          (fun r => (q.wconjs.filter (fun c => classify q c == .toRight)).all
            (fun c => isTrueV (evalExpr r c)))) =
      (lookupJoin q.kind q.lkey q.rkey q.rcols
        ((scanOp q.ltab none lrows).filter
          (fun r => (q.wconjs.filter (fun c => classify q c == .toLeft)).all
            (fun c => isTrueV (evalExpr r c))))
        (scanOp q.rtab none rrows)).filter
          (fun r => (q.wconjs.filter (fun c => classify q c == .toRight)).all
            (fun c => isTrueV (evalExpr r c))) := by
    cases hkind : q.kind with
    | inner =>
      rw [← hkind]
      have hkind' := hkind
      rw [hkind]
      apply lookupJoin_filter_right
      intro l hl r hr
      apply allCongr
      intro c hc
      have hcw : c ∈ q.wconjs := (List.mem_filter.mp hc).1
      have hcr : classify q c = .toRight := by
        have := (List.mem_filter.mp hc).2
        simpa using this
      have habs := hR c hcw hcr l (List.mem_filter.mp hl).1
      rw [evalExpr_append_left l r c habs]
    | left =>
      have hrcs : q.wconjs.filter (fun c => classify q c == .toRight) = [] := by
        apply List.filter_eq_nil_iff.mpr
        intro c hc hbeq
        have hcr : classify q c = .toRight := by simpa using hbeq
        have := classify_toRight_inner q c hcr
        rw [hkind] at this
        cases this
      rw [hrcs]
      simp [List.filter_true]
  rw [hstepA]
  have hstepB :
      lookupJoin q.kind q.lkey q.rkey q.rcols
        ((scanOp q.ltab none lrows).filter
          (fun r => (q.wconjs.filter (fun c => classify q c == .toLeft)).all
            (fun c => isTrueV (evalExpr r c))))
        (scanOp q.rtab none rrows) =
      (lookupJoin q.kind q.lkey q.rkey q.rcols
        (scanOp q.ltab none lrows)
        (scanOp q.rtab none rrows)).filter
          (fun r => (q.wconjs.filter (fun c => classify q c == .toLeft)).all
            (fun c => isTrueV (evalExpr r c))) := by
    apply lookupJoin_filter_left
    · intro l hl r hr
      apply allCongr
      intro c hc
      have hcw : c ∈ q.wconjs := (List.mem_filter.mp hc).1
      have hcl : classify q c = .toLeft := by
        have := (List.mem_filter.mp hc).2
        simpa using this
      exact congrArg isTrueV (evalExpr_append_right l r c ((hL c hcw hcl).1 r hr))
    · intro l hl
      apply allCongr
      intro c hc
      have hcw : c ∈ q.wconjs := (List.mem_filter.mp hc).1
      have hcl : classify q c = .toLeft := by
        have := (List.mem_filter.mp hc).2
        simpa using this
      exact congrArg isTrueV (evalExpr_append_right l (nullRow q.rcols) c (hL c hcw hcl).2)
  rw [hstepB]
  rw [List.filter_filter, List.filter_filter]
  apply List.filter_congr
  intro r _
  rw [all_classify_split q (fun c => isTrueV (evalExpr r c)) q.wconjs]
  cases (q.wconjs.filter (fun c => classify q c == .toLeft)).all
      (fun c => isTrueV (evalExpr r c)) <;>
    cases (q.wconjs.filter (fun c => classify q c == .toRight)).all
      (fun c => isTrueV (evalExpr r c)) <;>
    cases (q.wconjs.filter (fun c => classify q c == .above)).all
      (fun c => isTrueV (evalExpr r c)) <;>
    rfl

/-- A value's kind is integer. -/
def isIntVal : Value → Bool
  | .int _ => true
  | _ => false

/-- Every row carries an integer value in the given key column. -/
def intKeys (k : String) (rows : List Row) : Prop :=
  ∀ r ∈ rows, isIntVal (rowGet r k) = true

/-- The engine's key order on rows: the first key does not compare greater
than the second. -/
def keyLe (k : String) (a b : Row) : Prop :=
  valueCmp (rowGet a k) (rowGet b k) ≠ .gt

/-- Modelled from the spec: a producer is sorted non-descending on the key
column (the ordered-by declaration, §3 "Registered table"). -/
def sortedOn (k : String) (rows : List Row) : Prop :=
  rows.Pairwise (keyLe k)

instance decKeyLe (k : String) (a b : Row) : Decidable (keyLe k a b) :=
  inferInstanceAs (Decidable (valueCmp (rowGet a k) (rowGet b k) ≠ .gt))

instance decIntKeys (k : String) (rows : List Row) : Decidable (intKeys k rows) :=
  inferInstanceAs (Decidable (∀ r ∈ rows, isIntVal (rowGet r k) = true))

instance decSortedOn (k : String) (rows : List Row) : Decidable (sortedOn k rows) :=
  inferInstanceAs (Decidable (List.Pairwise (keyLe k) rows))

/-- Integer comparison through the value comparator: equality. -/
theorem valueCmp_int_eq_iff (a b : Int) :
    valueCmp (.int a) (.int b) = .eq ↔ a = b := by
  show (if a < b then Ordering.lt else if a = b then Ordering.eq else Ordering.gt) =
    Ordering.eq ↔ a = b
  split_ifs with h1 h2 <;> simp_all <;> omega

/-- Integer comparison through the value comparator: less-than. -/
theorem valueCmp_int_lt_iff (a b : Int) :
    valueCmp (.int a) (.int b) = .lt ↔ a < b := by
  show (if a < b then Ordering.lt else if a = b then Ordering.eq else Ordering.gt) =
    Ordering.lt ↔ a < b
  split_ifs with h1 h2 <;> simp_all <;> omega

/-- Integer comparison through the value comparator: greater-than. -/
theorem valueCmp_int_gt_iff (a b : Int) :
    valueCmp (.int a) (.int b) = .gt ↔ b < a := by
  show (if a < b then Ordering.lt else if a = b then Ordering.eq else Ordering.gt) =
    Ordering.gt ↔ b < a
  split_ifs with h1 h2 <;> simp_all <;> omega

/-- Boolean equality of orderings is propositional equality. -/
theorem ordBeq_eq_true_iff (o p : Ordering) : (o == p) = true ↔ o = p := by
  cases o <;> cases p <;> decide

/-- Integer join keys match exactly when the integers are equal. -/
theorem matchKey_int (a b : Int) : matchKey (.int a) (.int b) = (a == b) := rfl

/-- Unfolding one step of the match list. -/
theorem matchRows_cons (kr : String) (k : Value) (x : Row) (xs : List Row) :
    matchRows kr k (x :: xs) =
      if matchKey k (rowGet x kr) = true then x :: matchRows kr k xs
      else matchRows kr k xs := by
  simp [matchRows, List.filter_cons]

/-- A lookup join against an exhausted right input: inner joins emit nothing,
LEFT joins flush every left row null-padded. -/
theorem lookupJoin_nil_right (kind : JoinKind) (kl kr : String)
    (rcols : List String) (lefts : List Row) :
    lookupJoin kind kl kr rcols lefts [] =
      match kind with
      | .left => lefts.map (fun l => l ++ nullRow rcols)
      | .inner => [] := by
  induction lefts with
  | nil => cases kind <;> rfl
  | cons l ls ih => cases kind <;> simp_all [lookupJoin, matchRows]

/-- A right-input head row matched by no left row can be dropped without
changing the lookup join. -/
theorem lookupJoin_drop_right_head (kind : JoinKind) (kl kr : String)
    (rcols : List String) (lefts : List Row) (r : Row) (rs : List Row)
    (h : ∀ l ∈ lefts, matchKey (rowGet l kl) (rowGet r kr) = false) :
    lookupJoin kind kl kr rcols lefts (r :: rs) =
      lookupJoin kind kl kr rcols lefts rs := by
  induction lefts with
  | nil => rfl
  | cons l ls ih =>
    have hm : matchRows kr (rowGet l kl) (r :: rs) = matchRows kr (rowGet l kl) rs := by
      rw [matchRows_cons, if_neg]
      rw [h l (by simp)]
      simp
    simp only [lookupJoin, hm, ih (fun x hx => h x (by simp [hx]))]

/-- No row with an integer key strictly above the probe key matches it. -/
theorem matchRows_nil_of_lt (kr : String) (a : Int) (rows : List Row)
    (h : ∀ x ∈ rows, ∃ m : Int, rowGet x kr = .int m ∧ a < m) :
    matchRows kr (.int a) rows = [] := by
  apply List.filter_eq_nil_iff.mpr
  intro x hx
  rcases h x hx with ⟨m, hm, ham⟩
  rw [hm, matchKey_int]
  simp
  omega

/-- In a sorted right input with integer keys, the head key bounds every key
from below. -/
theorem sorted_lower_bound (k : String) (r : Row) (rs : List Row)
    (hint : intKeys k (r :: rs)) (hsort : sortedOn k (r :: rs)) (b : Int)
    (hb : rowGet r k = .int b) :
    ∀ x ∈ r :: rs, ∃ m : Int, rowGet x k = .int m ∧ b ≤ m := by
  intro x hx
  have hx' := hint x hx
  cases hvx : rowGet x k with
  | int m =>
    refine ⟨m, rfl, ?_⟩
    rcases List.mem_cons.mp hx with h | h
    · subst h
      rw [hvx] at hb
      injection hb with hb'
      omega
    · have hle := (List.pairwise_cons.mp hsort).1 x h
      unfold keyLe at hle
      rw [hb, hvx] at hle
      by_contra hcon
      exact hle ((valueCmp_int_gt_iff b m).mpr (by omega))
  | null => rw [hvx] at hx'; simp [isIntVal] at hx'
  | bool bb => rw [hvx] at hx'; simp [isIntVal] at hx'
  | str s => rw [hvx] at hx'; simp [isIntVal] at hx'

/-- On a sorted right input whose keys all lie at or above the probe key, the
match list is the initial run of equal keys. -/
theorem matchRows_eq_takeWhile (kr : String) (a : Int) :
    ∀ (rows : List Row), intKeys kr rows → sortedOn kr rows →
      (∀ x ∈ rows, ∃ m : Int, rowGet x kr = .int m ∧ a ≤ m) →
      matchRows kr (.int a) rows =
        rows.takeWhile (fun x => valueCmp (rowGet x kr) (.int a) == .eq) := by
  intro rows
  induction rows with
  | nil => intro _ _ _; rfl
  | cons x xs ih =>
    intro hint hsort hlow
    rcases hlow x (by simp) with ⟨m, hm, ham⟩
    rw [matchRows_cons, List.takeWhile_cons, hm, matchKey_int]
    by_cases heq : a = m
    · subst heq
      rw [if_pos (by simp), if_pos (by simp [ordBeq_eq_true_iff, valueCmp_int_eq_iff])]
      rw [ih (fun y hy => hint y (by simp [hy]))
        (List.pairwise_cons.mp hsort).2
        (fun y hy => hlow y (by simp [hy]))]
    · have hlt : a < m := by omega
      rw [if_neg (by simp; omega),
          if_neg (by simp [ordBeq_eq_true_iff, valueCmp_int_eq_iff]; omega)]
      apply matchRows_nil_of_lt
      intro y hy
      rcases sorted_lower_bound kr x xs hint hsort m hm y (by simp [hy]) with ⟨p, hp, hmp⟩
      exact ⟨p, hp, by omega⟩

/-- Sufficient fuel makes the sort-merge state machine agree with the lookup
join on sorted integer-keyed inputs. -/
theorem mergeJoinAux_eq_lookupJoin (kind : JoinKind) (kl kr : String)
    (rcols : List String) :
    ∀ (fuel : Nat) (lefts rights : List Row),
      lefts.length + rights.length < fuel →
      intKeys kl lefts → intKeys kr rights →
      sortedOn kl lefts → sortedOn kr rights →
      mergeJoinAux kind kl kr rcols fuel lefts rights =
        lookupJoin kind kl kr rcols lefts rights := by
  intro fuel
  induction fuel with
  | zero =>
    intro lefts rights hf _ _ _ _
    omega
  | succ fuel ih =>
    intro lefts rights hf hintL hintR hsL hsR
    cases lefts with
    | nil => rfl
    | cons l ls =>
      cases rights with
      | nil =>
        rw [lookupJoin_nil_right]
        cases kind <;> rfl
      | cons r rs =>
        obtain ⟨a, ha⟩ : ∃ a : Int, rowGet l kl = .int a := by
          have hla := hintL l (by simp)
          cases hv : rowGet l kl with
          | int n => exact ⟨n, rfl⟩
          | null => rw [hv] at hla; simp [isIntVal] at hla
          | bool bb => rw [hv] at hla; simp [isIntVal] at hla
          | str s => rw [hv] at hla; simp [isIntVal] at hla
        obtain ⟨b, hb⟩ : ∃ b : Int, rowGet r kr = .int b := by
          have hrb := hintR r (by simp)
          cases hv : rowGet r kr with
          | int n => exact ⟨n, rfl⟩
          | null => rw [hv] at hrb; simp [isIntVal] at hrb
          | bool bb => rw [hv] at hrb; simp [isIntVal] at hrb
          | str s => rw [hv] at hrb; simp [isIntVal] at hrb
        simp only [mergeJoinAux, ha, hb]
        rcases lt_trichotomy a b with hab | hab | hab
        · rw [if_pos ((valueCmp_int_lt_iff a b).mpr hab)]
          have hnil : matchRows kr (.int a) (r :: rs) = [] := by
            apply matchRows_nil_of_lt
            intro y hy
            rcases sorted_lower_bound kr r rs hintR hsR b hb y hy with ⟨p, hp, hbp⟩
            exact ⟨p, hp, by omega⟩
          have ihx := ih ls (r :: rs)
            (by simp only [List.length_cons] at hf ⊢; omega)
            (fun y hy => hintL y (by simp [hy])) hintR
            (List.pairwise_cons.mp hsL).2 hsR
          simp only [lookupJoin, ha, hnil]
          simp [ihx]
        · subst hab
          rw [if_neg (by simp [valueCmp_int_lt_iff]),
              if_neg (by simp [valueCmp_int_gt_iff])]
          have hlow : ∀ x ∈ r :: rs, ∃ m : Int, rowGet x kr = .int m ∧ a ≤ m := by
            intro y hy
            rcases sorted_lower_bound kr r rs hintR hsR a hb y hy with ⟨p, hp, hap⟩
            exact ⟨p, hp, hap⟩
          have hrun : matchRows kr (.int a) (r :: rs) =
              (r :: rs).takeWhile (fun x => valueCmp (rowGet x kr) (.int a) == .eq) :=
            matchRows_eq_takeWhile kr a (r :: rs) hintR hsR hlow
          have ihx := ih ls (r :: rs)
            (by simp only [List.length_cons] at hf ⊢; omega)
            (fun y hy => hintL y (by simp [hy])) hintR
            (List.pairwise_cons.mp hsL).2 hsR
          simp only [lookupJoin, ha, hrun]
          rw [List.takeWhile_cons,
              if_pos (by rw [hb]; simp [ordBeq_eq_true_iff, valueCmp_int_eq_iff])]
          simp [ihx, hb]
        · rw [if_neg (by simp [valueCmp_int_lt_iff]; omega),
              if_pos ((valueCmp_int_gt_iff a b).mpr hab)]
          have ihx := ih (l :: ls) rs
            (by simp only [List.length_cons] at hf ⊢; omega)
            hintL (fun y hy => hintR y (by simp [hy]))
            hsL (List.pairwise_cons.mp hsR).2
          rw [ihx]
          symm
          apply lookupJoin_drop_right_head
          intro x hx
          rcases sorted_lower_bound kl l ls hintL hsL a ha x hx with ⟨p, hp, hap⟩
          rw [hp, hb, matchKey_int]
          simp
          omega

/-- The sort-merge join agrees with the lookup join on sorted integer-keyed
inputs. -/
theorem mergeJoin_eq_lookupJoin (kind : JoinKind) (kl kr : String)
    (rcols : List String) (lefts rights : List Row)
    (hintL : intKeys kl lefts) (hintR : intKeys kr rights)
    (hsL : sortedOn kl lefts) (hsR : sortedOn kr rights) :
    mergeJoin kind kl kr rcols lefts rights =
      lookupJoin kind kl kr rcols lefts rights :=
  mergeJoinAux_eq_lookupJoin kind kl kr rcols
    (lefts.length + rights.length + 1) lefts rights (by omega)
    hintL hintR hsL hsR

/-! ### Claim theorems -/

/-- C1: on the canonical fixtures, the inner join of users and orders on
users.id = orders.user_id yields exactly 6 result rows, one per order, and
every order has a matching user. -/
theorem scenario1_inner_join_six_rows :
    scenario1Result.length = 6 ∧
    scenario1Result.length = ordersRows.length ∧
    ordersRows.all
      (fun o => usersRows.any (fun u => matchKey (rowGet u "id") (rowGet o "user_id"))) = true :=
  ⟨rfl, rfl, rfl⟩

/-- C2: every left row of a LEFT join appears in the output at least once; an
unmatched left row appears with all right-side columns null; a left row with
N matches contributes N output rows (so the output length is the sum of
max 1 N over the left rows); and on the canonical fixtures the LEFT join of
products and reviews yields exactly 7 rows — Laptop matched twice, the
unmatched products carrying a null rating. -/
theorem left_join_preservation :
    (∀ (kl kr : String) (rcols : List String) (lefts rights : List Row),
      (lookupJoin .left kl kr rcols lefts rights).length =
        (lefts.map (fun l => max 1 (matchRows kr (rowGet l kl) rights).length)).sum) ∧
    (∀ (kl kr : String) (rcols : List String) (lefts rights : List Row) (l : Row),
      l ∈ lefts → matchRows kr (rowGet l kl) rights = [] →
      (l ++ nullRow rcols) ∈ lookupJoin .left kl kr rcols lefts rights) ∧
    (∀ (kl kr : String) (rcols : List String) (lefts rights : List Row) (l : Row),
      l ∈ lefts → ∃ t, (l ++ t) ∈ lookupJoin .left kl kr rcols lefts rights) ∧
    scenario5Result =
      [[("products.name", Value.str "Laptop"), ("reviews.rating", Value.int 5)],
       [("products.name", Value.str "Laptop"), ("reviews.rating", Value.int 4)],
       [("products.name", Value.str "Mouse"), ("reviews.rating", Value.null)],
       [("products.name", Value.str "Keyboard"), ("reviews.rating", Value.null)],
       [("products.name", Value.str "Monitor"), ("reviews.rating", Value.null)],
       [("products.name", Value.str "USB Cable"), ("reviews.rating", Value.null)],
       [("products.name", Value.str "Headphones"), ("reviews.rating", Value.null)]] ∧
    scenario5Result.length = 7 :=
  ⟨lookupJoin_left_length,
   fun kl kr rcols lefts rights l hl hm =>
     lookupJoin_left_unmatched kl kr rcols lefts rights l hl hm,
   fun kl kr rcols lefts rights l hl =>
     lookupJoin_left_mem kl kr rcols lefts rights l hl,
   rfl, rfl⟩

/-- C2 witness: the qualified Mouse row is an unmatched left row of the
products-reviews LEFT join and appears null-padded in its output. -/
theorem left_join_preservation_witness :
    ([("products.product_id", Value.int 2), ("products.name", Value.str "Mouse"),
      ("products.category", Value.str "Electronics"), ("products.stock", Value.int 200),
      ("products.checked", Value.int 1)] ∈ scanOp "products" none productsRows ∧
     matchRows "reviews.product_id"
       (rowGet [("products.product_id", Value.int 2), ("products.name", Value.str "Mouse"),
                ("products.category", Value.str "Electronics"), ("products.stock", Value.int 200),
                ("products.checked", Value.int 1)] "products.product_id")
       (scanOp "reviews" none reviewsRows) = []) ∧
    ([("products.product_id", Value.int 2), ("products.name", Value.str "Mouse"),
      ("products.category", Value.str "Electronics"), ("products.stock", Value.int 200),
      ("products.checked", Value.int 1)] ++ nullRow reviewsCols) ∈
      lookupJoin .left "products.product_id" "reviews.product_id" reviewsCols
        (scanOp "products" none productsRows) (scanOp "reviews" none reviewsRows) :=
  ⟨⟨by decide, by decide⟩,
   left_join_preservation.2.1 "products.product_id" "reviews.product_id" reviewsCols
     (scanOp "products" none productsRows) (scanOp "reviews" none reviewsRows)
     [("products.product_id", Value.int 2), ("products.name", Value.str "Mouse"),
      ("products.category", Value.str "Electronics"), ("products.stock", Value.int 200),
      ("products.checked", Value.int 1)] (by decide) (by decide)⟩

/-- C3: on the canonical fixtures, `SELECT products.name FROM products WHERE
products.stock > 100` yields exactly the three rows Mouse, Keyboard and USB
Cable, whose stocks are 200, 150 and 500. -/
theorem scenario2_filter_three_rows :
    scenario2Result =
      [[("products.name", Value.str "Mouse")],
       [("products.name", Value.str "Keyboard")],
       [("products.name", Value.str "USB Cable")]] ∧
    scenario2Result.length = 3 ∧
    rowGet (productsRows.getD 1 []) "stock" = .int 200 ∧
    rowGet (productsRows.getD 2 []) "stock" = .int 150 ∧
    rowGet (productsRows.getD 4 []) "stock" = .int 500 :=
  ⟨rfl, rfl, rfl, rfl, rfl⟩

/-- C4: the plan with predicate pushdown applied (single-table WHERE
conjuncts pushed into the scans, the rest filtered above the join) yields the
same results as the naive plan evaluating the whole WHERE predicate above
the join, for every query and producer-supplied inputs whose conjuncts read
only their own side's columns; and for a LEFT join a conjunct referencing
only the nullable right side is never pushed below the join. -/
theorem predicate_pushdown_soundness :
    (∀ (q : SJQuery) (lrows rrows : List Row),
      (∀ c ∈ q.wconjs, classify q c = .toLeft →
        (∀ r ∈ scanOp q.rtab none rrows, colsAbsent (exprCols c) r) ∧
        colsAbsent (exprCols c) (nullRow q.rcols)) →
      (∀ c ∈ q.wconjs, classify q c = .toRight →
        ∀ l ∈ scanOp q.ltab none lrows, colsAbsent (exprCols c) l) →
      runPushed q lrows rrows = runNaive q lrows rrows) ∧
    (∀ (q : SJQuery) (c : Expr), q.kind = .left → q.rtab ∈ exprTables c →
      (∀ t ∈ exprTables c, t = q.rtab) → q.ltab ≠ q.rtab →
      classify q c = .above) := by
  constructor
  · exact runPushed_eq_runNaive
  · intro q c hkind hmem hall hne
    unfold classify
    have h1 : ((exprTables c).all (fun t => t == q.ltab)) = false := by
      cases hx : (exprTables c).all (fun t => t == q.ltab) with
      | false => rfl
      | true =>
        exfalso
        have hrt := List.all_eq_true.mp hx q.rtab hmem
        have hrt2 : q.rtab = q.ltab := by simpa using hrt
        exact hne hrt2.symm
    have h2 : (q.kind == JoinKind.inner) = false := by
      rw [hkind]
      rfl
    simp [h1, h2]

/-- C4 witness: for the users-orders inner join with one left-side conjunct
(users.age ≥ 30) and one right-side conjunct (orders.price > 50), the pushed
and the naive plan agree on the canonical fixtures. -/
theorem predicate_pushdown_soundness_witness :
    ((∀ c ∈ (SJQuery.mk
        [("users.name", .col (some "users") "name"),
         ("orders.product", .col (some "orders") "product")]
        "users" "orders" .inner "users.id" "orders.user_id" ordersCols
        [.bin .ge (.col (some "users") "age") (.lit (.int 30)),
         .bin .gt (.col (some "orders") "price") (.lit (.int 50))]).wconjs,
      classify (SJQuery.mk
        [("users.name", .col (some "users") "name"),
         ("orders.product", .col (some "orders") "product")]
        "users" "orders" .inner "users.id" "orders.user_id" ordersCols
        [.bin .ge (.col (some "users") "age") (.lit (.int 30)),
         .bin .gt (.col (some "orders") "price") (.lit (.int 50))]) c = .toLeft →
        (∀ r ∈ scanOp "orders" none ordersRows, colsAbsent (exprCols c) r) ∧
        colsAbsent (exprCols c) (nullRow ordersCols)) ∧
     (∀ c ∈ (SJQuery.mk
        [("users.name", .col (some "users") "name"),
         ("orders.product", .col (some "orders") "product")]
        "users" "orders" .inner "users.id" "orders.user_id" ordersCols
        [.bin .ge (.col (some "users") "age") (.lit (.int 30)),
         .bin .gt (.col (some "orders") "price") (.lit (.int 50))]).wconjs,
      classify (SJQuery.mk
        [("users.name", .col (some "users") "name"),
         ("orders.product", .col (some "orders") "product")]
        "users" "orders" .inner "users.id" "orders.user_id" ordersCols
        [.bin .ge (.col (some "users") "age") (.lit (.int 30)),
         .bin .gt (.col (some "orders") "price") (.lit (.int 50))]) c = .toRight →
        ∀ l ∈ scanOp "users" none usersRows, colsAbsent (exprCols c) l)) ∧
    runPushed (SJQuery.mk
        [("users.name", .col (some "users") "name"),
         ("orders.product", .col (some "orders") "product")]
        "users" "orders" .inner "users.id" "orders.user_id" ordersCols
        [.bin .ge (.col (some "users") "age") (.lit (.int 30)),
         .bin .gt (.col (some "orders") "price") (.lit (.int 50))])
      usersRows ordersRows =
    runNaive (SJQuery.mk
        [("users.name", .col (some "users") "name"),
         ("orders.product", .col (some "orders") "product")]
        "users" "orders" .inner "users.id" "orders.user_id" ordersCols
        [.bin .ge (.col (some "users") "age") (.lit (.int 30)),
         .bin .gt (.col (some "orders") "price") (.lit (.int 50))])
      usersRows ordersRows :=
  ⟨⟨by decide, by decide⟩,
   predicate_pushdown_soundness.1 _ usersRows ordersRows (by decide) (by decide)⟩

/-- C5: with both inputs pre-sorted non-descending on their (integer) join
keys, the sort-merge join produces a result sequence equal to the lookup
join's; matching ordered-by declarations select the SORT_MERGE strategy; and
on scenario 1 with both fixtures pre-sorted the projected result is the same
6-row sequence the lookup plan produces, preserving the users input's
order. -/
theorem sortmerge_strategy_equivalence :
    (∀ (kind : JoinKind) (kl kr : String) (rcols : List String)
        (lefts rights : List Row),
      intKeys kl lefts → intKeys kr rights →
      sortedOn kl lefts → sortedOn kr rights →
      mergeJoin kind kl kr rcols lefts rights =
        lookupJoin kind kl kr rcols lefts rights) ∧
    chooseStrategy false ⟨some "id", none⟩ ⟨some "user_id", none⟩
      "id" "user_id" false = .sortMerge ∧
    projectOp
      [("users.name", .col (some "users") "name"),
       ("orders.product", .col (some "orders") "product")]
      (mergeJoin .inner "users.id" "orders.user_id" ordersCols
        (scanOp "users" none usersRows) (scanOp "orders" none ordersRows)) =
      scenario1Result ∧
    scenario1Result.length = 6 :=
  ⟨fun kind kl kr rcols lefts rights h1 h2 h3 h4 =>
     mergeJoin_eq_lookupJoin kind kl kr rcols lefts rights h1 h2 h3 h4,
   rfl, rfl, rfl⟩

/-- C5 witness: the scenario-1 fixtures are sorted on their integer join
keys, and the sort-merge join of the two scans equals the lookup join. -/
theorem sortmerge_strategy_equivalence_witness :
    (intKeys "users.id" (scanOp "users" none usersRows) ∧
     intKeys "orders.user_id" (scanOp "orders" none ordersRows) ∧
     sortedOn "users.id" (scanOp "users" none usersRows) ∧
     sortedOn "orders.user_id" (scanOp "orders" none ordersRows)) ∧
    mergeJoin .inner "users.id" "orders.user_id" ordersCols
      (scanOp "users" none usersRows) (scanOp "orders" none ordersRows) =
    lookupJoin .inner "users.id" "orders.user_id" ordersCols
      (scanOp "users" none usersRows) (scanOp "orders" none ordersRows) :=
  ⟨⟨by decide, by decide, by decide, by decide⟩,
   sortmerge_strategy_equivalence.1 .inner "users.id" "orders.user_id" ordersCols
     (scanOp "users" none usersRows) (scanOp "orders" none ordersRows)
     (by decide) (by decide) (by decide) (by decide)⟩

/-- C6: the memory-mapped join strategy produces results equal to the lookup
join for every query and inputs (the mapped file holding the rows the right
producer yields), and falls back to the lookup join whenever the filename is
absent or the file is not in a mappable row format. -/
theorem mmap_equals_lookup :
    (∀ (kind : JoinKind) (kl kr : String) (rcols : List String) (lefts rights : List Row),
      mmapStrategy kind kl kr rcols lefts rights (some (rights, true)) =
        lookupJoin kind kl kr rcols lefts rights) ∧
    (∀ (kind : JoinKind) (kl kr : String) (rcols : List String) (lefts rights : List Row),
      mmapStrategy kind kl kr rcols lefts rights none =
        lookupJoin kind kl kr rcols lefts rights) ∧
    (∀ (kind : JoinKind) (kl kr : String) (rcols : List String)
        (lefts rights file : List Row),
      mmapStrategy kind kl kr rcols lefts rights (some (file, false)) =
        lookupJoin kind kl kr rcols lefts rights) :=
  ⟨fun kind kl kr rcols lefts rights =>
     mmapJoinCore_eq_lookupJoin kind kl kr rcols lefts rights,
   fun _ _ _ _ _ _ => rfl,
   fun _ _ _ _ _ _ _ => rfl⟩

/-- C7: a row survives a filter iff its predicate evaluates to the boolean
true under three-valued logic; predicates evaluating to null or false drop
the row; and IS NULL / IS NOT NULL always evaluate to a definite boolean. -/
theorem filter_three_valued_semantics :
    (∀ (p : Expr) (rows : List Row) (r : Row),
      r ∈ filterOp p rows ↔ r ∈ rows ∧ evalExpr r p = .bool true) ∧
    (∀ (p : Expr) (rows : List Row) (r : Row),
      evalExpr r p = .null ∨ evalExpr r p = .bool false → r ∉ filterOp p rows) ∧
    (∀ (e : Expr) (row : Row) (neg : Bool), ∃ b, evalExpr row (.isNull e neg) = .bool b) := by
  have hmem : ∀ (p : Expr) (rows : List Row) (r : Row),
      r ∈ filterOp p rows ↔ r ∈ rows ∧ evalExpr r p = .bool true := by
    intro p rows r
    simp [filterOp, List.mem_filter, isTrueV_eq_true_iff]
  refine ⟨hmem, ?_, ?_⟩
  · intro p rows r h hin
    have h2 := ((hmem p rows r).mp hin).2
    rcases h with h | h <;> rw [h2] at h <;> exact absurd h (by decide)
  · intro e row neg
    exact ⟨_, rfl⟩

/-- C7 witness: a row whose predicate is the null literal is dropped. -/
theorem filter_three_valued_semantics_witness :
    (evalExpr [] (Expr.lit .null) = .null ∨ evalExpr [] (Expr.lit .null) = .bool false) ∧
    ([] : Row) ∉ filterOp (Expr.lit .null) [([] : Row)] :=
  ⟨Or.inl rfl,
   filter_three_valued_semantics.2.1 (Expr.lit .null) [([] : Row)] ([] : Row) (Or.inl rfl)⟩

/-- C10: `load_jsonl` yields exactly one parsed value per non-blank line, in
file order, silently skipping lines that are empty or whitespace-only. -/
theorem load_jsonl_non_blank_lines :
    (∀ {V : Type} (parseLine : String → V) (lines : List String),
      load_jsonl parseLine lines =
        ((lines.map pyStrip).filter (fun s => !(s == ""))).map parseLine) ∧
    (∀ {V : Type} (parseLine : String → V) (lines : List String),
      (load_jsonl parseLine lines).length =
        (lines.filter (fun l => !(pyStrip l == ""))).length) ∧
    (∀ {V : Type} (parseLine : String → V),
      load_jsonl parseLine ["", "   "] = ([] : List V)) := by
  have hchar : ∀ {V : Type} (parseLine : String → V) (lines : List String),
      load_jsonl parseLine lines =
        ((lines.map pyStrip).filter (fun s => !(s == ""))).map parseLine := by
    intro V parseLine lines
    induction lines with
    | nil => rfl
    | cons l ls ih =>
      simp only [load_jsonl, List.map_cons, List.filter_cons]
      by_cases h : pyStrip l = ""
      · simp [h, ih]
      · simp [h, ih]
  refine ⟨hchar, ?_, ?_⟩
  · intro V parseLine lines
    rw [hchar]
    induction lines with
    | nil => rfl
    | cons l ls ih =>
      simp only [List.map_cons, List.filter_cons]
      by_cases h : pyStrip l = ""
      · simpa [h] using ih
      · simpa [h] using ih
  · intro V parseLine
    rw [hchar]
    rfl

/-- C8: with restartable producers, any two runs of the same query on the
same engine — in particular a second run after the first, which uses the
producers' later invocations — yield identical results. -/
theorem query_two_runs_identical (q : SJQuery) (producers : String → Nat → List Row)
    (h : ∀ t, Restartable (producers t)) (counts counts' : String → Nat) :
    (runQueryCounted q producers counts).1 = (runQueryCounted q producers counts').1 := by
  simp only [runQueryCounted, invokeProducer]
  rw [h q.ltab (counts q.ltab) (counts' q.ltab)]
  rw [h q.rtab (if q.rtab = q.ltab then counts q.ltab + 1 else counts q.rtab)
      (if q.rtab = q.ltab then counts' q.ltab + 1 else counts' q.rtab)]

/-- C8 witness: the scenario-1 query against constant (hence restartable)
producers yields the same result on the first and on the second run. -/
theorem query_two_runs_identical_witness :
    (runQueryCounted
      ⟨[("users.name", .col (some "users") "name"),
        ("orders.product", .col (some "orders") "product")],
       "users", "orders", .inner, "users.id", "orders.user_id", ordersCols, []⟩
      (fun t _ => if t = "users" then usersRows else ordersRows)
      ((runQueryCounted
        ⟨[("users.name", .col (some "users") "name"),
          ("orders.product", .col (some "orders") "product")],
         "users", "orders", .inner, "users.id", "orders.user_id", ordersCols, []⟩
        (fun t _ => if t = "users" then usersRows else ordersRows)
        (fun _ => 0)).2)).1 =
    (runQueryCounted
      ⟨[("users.name", .col (some "users") "name"),
        ("orders.product", .col (some "orders") "product")],
       "users", "orders", .inner, "users.id", "orders.user_id", ordersCols, []⟩
      (fun t _ => if t = "users" then usersRows else ordersRows)
      (fun _ => 0)).1 :=
  query_two_runs_identical _ (fun t _ => if t = "users" then usersRows else ordersRows)
    (fun _ _ _ => rfl) _ _

/-- C9: planning failures are raised synchronously before any row is
yielded (an unknown table yields exactly that error); producer errors during
iteration surface to the caller — a right-side error at the first pull with
no rows yielded, a left-side error after the rows built from the already
produced left rows, which remain valid — and no error is silently
swallowed. -/
theorem failure_semantics :
    (∀ (q : SJQuery) (reg : List String) (lp rp : EProducer) (e : PlanErr),
      planCheck q reg = .error e → queryE q reg lp rp = .error e) ∧
    (∀ (q : SJQuery) (reg : List String),
      q.ltab ∉ reg → planCheck q reg = .error (.unknownTable q.ltab)) ∧
    (∀ (q : SJQuery) (reg : List String) (lp rp : EProducer)
        (res : List Row × Option String),
      queryE q reg lp rp = .ok res → res.2 = none → lp.2 = none ∧ rp.2 = none) ∧
    (∀ (q : SJQuery) (reg : List String) (lp rp : EProducer),
      planCheck q reg = .ok () → rp.2 = none →
        queryE q reg lp rp = .ok (runNaive q lp.1 rp.1, lp.2)) ∧
    (∀ (q : SJQuery) (reg : List String) (lp rp : EProducer) (e : String),
      planCheck q reg = .ok () → rp.2 = some e →
        queryE q reg lp rp = .ok ([], some e)) := by
  refine ⟨?_, ?_, ?_, ?_, ?_⟩
  · intro q reg lp rp e h
    simp [queryE, h]
  · intro q reg h
    simp [planCheck, h]
  · intro q reg lp rp res hok hnone
    unfold queryE at hok
    cases hpc : planCheck q reg with
    | error e => rw [hpc] at hok; exact absurd hok (by simp)
    | ok u =>
      rw [hpc] at hok
      have hres : runWithErrors q lp rp = res := by
        injection hok
      unfold runWithErrors at hres
      cases hr : rp.2 with
      | some e =>
        rw [hr] at hres
        rw [← hres] at hnone
        exact absurd hnone (by simp)
      | none =>
        rw [hr] at hres
        rw [← hres] at hnone
        exact ⟨hnone, rfl⟩
  · intro q reg lp rp hpc hr
    simp [queryE, hpc, runWithErrors, hr]
  · intro q reg lp rp e hpc hr
    simp [queryE, hpc, runWithErrors, hr]

/-- C9 witness: with no `users` table registered, the scenario-1 query fails
synchronously with the unknown-table planning error and yields no rows. -/
theorem failure_semantics_witness :
    planCheck
      ⟨[("users.name", .col (some "users") "name")],
       "users", "orders", .inner, "users.id", "orders.user_id", ordersCols, []⟩
      [] = .error (.unknownTable "users") ∧
    ("users" ∉ ([] : List String)) :=
  ⟨failure_semantics.2.1
    ⟨[("users.name", .col (some "users") "name")],
     "users", "orders", .inner, "users.id", "orders.user_id", ordersCols, []⟩
    [] (by simp), by simp⟩

end StreamingSQL
